import Mathlib

/-!
# Verification of the cloud-solid-server mapping/accessor core

A shallow embedding of the three components of the repository:

* `CloudBlobClient` (src/CloudBlobClient.ts) — object-store wrapper,
* `CloudExtensionBasedMapper` (src/CloudExtensionBasedMapper.ts) — identifier
  to storage-key translation with content-type reconciliation,
* `CloudDataAccessor` (src/CloudDataAccessor.ts) — resource CRUD orchestration.

Paths, identifiers, keys and blob contents are modelled as `List Char`
(`Str` below): all the operations the code performs on them (prefix and
suffix tests, slicing, regular-expression style scans) are elementary
character-list operations, which keeps the embedding both executable and
provable.  The object-storage backend (minio) is modelled as an explicit
key/value state plus a failure oracle, and every asynchronous operation as
an explicit state-passing function returning `Except`.

The host framework (`@solid/community-server`) is an external dependency
whose relevant behaviour (base-mapper wrapper, `getExtension`,
`isMetadataPath`, the default content type, URI composition) is modelled
from the specification; such definitions carry a `Modelled from the spec:`
doc comment.  Percent-encoding is a responsibility of the routing layer per
the specification and is therefore not part of this model.
-/

deriving instance DecidableEq for Except

/-- Character strings as lists of characters. -/
abbrev Str := List Char

/-- Convert a Lean string literal into the `Str` model. -/
def str (s : String) : Str := s.data

/-- JavaScript `\w` character class (the code uses `/\$\.\w+$/u`). -/
def isWordChar (c : Char) : Bool := c.isAlphanum || c == '_'

/-- Modelled from the spec: the default content type returned by the host
framework base mapper when no extension information is available
(`application/octet-stream`, spec section 4.2 step 3: "defaulting to a
generic binary type"). -/
def octetStream : Str := str "application/octet-stream"

/-- Modelled from the spec: the fixed fallback extension for content types
without a table entry (`unknownMediaTypeExtension` of the host base mapper;
the repository integration test writes `test$.unknown`). -/
def unknownMediaTypeExtension : Str := str "unknown"

/-- Modelled from the spec: host-framework `getExtension`: the suffix of
the path after the last dot, provided it is nonempty and contains neither a
dot nor a slash (regular expression `\.([^./]+)$`); otherwise empty. -/
def getExtension (p : Str) : Str :=
  match p.reverse.dropWhile (fun c => !(c == '.') && !(c == '/')) with
  | '.' :: _ =>
    if (p.reverse.takeWhile (fun c => !(c == '.') && !(c == '/'))).isEmpty then []
    else (p.reverse.takeWhile (fun c => !(c == '.') && !(c == '/'))).reverse
  | _ => []

/-- Modelled from the spec: host-framework `isMetadataPath`: does the path
end in the sidecar suffix `.meta`. -/
def isMetadataPath (p : Str) : Bool := (str ".meta").isSuffixOf p

/-- Does the path end in `/` (host `isContainerIdentifier` /
`isContainerPath` on identifier and storage-key strings). -/
def isContainerPath (p : Str) : Bool := (['/'] : Str).isSuffixOf p

/-- The test of `/\$\.\w+$/u` used by `mapUrlToDocumentPath` to reject
identifiers that already carry a reconciliation marker before their
extension: the string ends in a nonempty run of word characters,
immediately preceded by `.`, immediately preceded by `$`. -/
def hasDollarExtSuffix (p : Str) : Bool :=
  !(p.reverse.takeWhile isWordChar).isEmpty &&
    (match p.reverse.dropWhile isWordChar with
     | '.' :: '$' :: _ => true
     | _ => false)

/-- Match of the pattern `(?:\$\..+)?$` anchored at the current position
and running to the end of the string: either the remainder is empty, or it
is `$`, `.`, and at least one further character. -/
def matchesOptDollarDotToEnd (t : Str) : Bool :=
  t.isEmpty ||
    (match t with
     | '$' :: '.' :: rest => !rest.isEmpty
     | _ => false)

/-- The test of the UNANCHORED regular expression `/(?:\$\..+)?$/u` used in
the read-path file filter of `mapUrlToDocumentPath`: search every start
position for a match running to the end.  (Because the group is optional,
the empty match at the end position always succeeds.) -/
def optionalDollarDotTest (s : Str) : Bool :=
  (List.range (s.length + 1)).any (fun i => matchesOptDollarDotToEnd (s.drop i))

/-- The decomposition `/^(.*\/)(.*)$/u.exec(filePath)` of the read path:
greedy `.*` puts the last `/` at the end of the first group, so `folder` is
everything up to and including the last slash and `documentName` the rest.
`none` when the path contains no slash (there the source dereferences a
null match and crashes; unreachable for keys the mapper itself builds). -/
def splitLastSlash (p : Str) : Option (Str × Str) :=
  if (p.reverse.dropWhile (fun c => !(c == '/'))).isEmpty then none
  else some ((p.reverse.dropWhile (fun c => !(c == '/'))).reverse,
             (p.reverse.takeWhile (fun c => !(c == '/'))).reverse)

/-- JavaScript truthiness chain `a || b || ... || dflt` over possibly
missing, possibly empty strings (`undefined`/`false` are `none`, the empty
string is falsy). -/
def firstTruthy (xs : List (Option Str)) (dflt : Str) : Str :=
  match xs with
  | [] => dflt
  | x :: rest =>
    match x with
    | some s => if s.isEmpty then firstTruthy rest dflt else s
    | none => firstTruthy rest dflt

/-- Test whether `needle` occurs as a contiguous subsequence of `hay`
(JavaScript `hay.includes(needle)`). -/
def containsSeq (needle : Str) : Str → Bool
  | [] => needle.isPrefixOf []
  | c :: t => needle.isPrefixOf (c :: t) || containsSeq needle t

/-- Errors raised by the mapper (HTTP error classes of the host framework). -/
inductive MapErr where
  | notFound
  | badRequest
  | notImplemented
  | internalServerError
  deriving DecidableEq, Repr

/-- The result of mapping (`ResourceLink`). -/
structure ResourceLink where
  identifier : Str
  filePath : Str
  contentType : Option Str
  isMetadata : Bool
  deriving DecidableEq, Repr

/-- Configuration of `CloudExtensionBasedMapper`: the trimmed base request
URI, the internal root prefix (the constructor hard-codes `"root"`), the
host template directory, and the extension/content-type tables
(`mime-types` lookup and extension functions plus the custom tables built
in the constructor). -/
structure MapperCfg where
  base : Str
  root : Str
  templatePath : Str
  mimeLookup : Str → Option Str
  mimeExtension : Str → Option Str
  customTypes : Str → Option Str
  customExtensions : Str → Option Str

namespace CloudExtensionBasedMapper

/-- The method `getContentTypeFromPath`: look the lowercased extension up in the mime
table, then the custom table, then fall back to the host default
(`application/octet-stream`). -/
def getContentTypeFromPath (cfg : MapperCfg) (filePath : Str) : Str :=
  firstTruthy [cfg.mimeLookup ((getExtension filePath).map Char.toLower),
               cfg.customTypes ((getExtension filePath).map Char.toLower)] octetStream

/-- The extension chosen on the write path:
`mime.extension(contentType) || customExtensions[contentType]`
(empty result means JavaScript-falsy, triggering the fallback). -/
def extensionFor (cfg : MapperCfg) (contentType : Str) : Str :=
  firstTruthy [cfg.mimeExtension contentType, cfg.customExtensions contentType] []

/-- Modelled from the spec: the base mapper `mapUrlToDocumentPath`
packaging step: build the `ResourceLink` from the (possibly rewritten)
file path and content type, flagging sidecar paths. -/
def mkDocumentLink (identifier filePath : Str) (contentType : Option Str) : ResourceLink :=
  { identifier := identifier, filePath := filePath, contentType := contentType,
    isMetadata := isMetadataPath filePath }

/-- The method `mapUrlToDocumentPath` of `CloudExtensionBasedMapper` (the override).
The parent-folder listing of the blob client is passed as an oracle
`list`; `none` models the listing call throwing (the code catches every
such failure and proceeds with the unmodified candidate). -/
def mapUrlToDocumentPath (cfg : MapperCfg) (list : Str → Option (List Str))
    (identifier filePath : Str) (contentType : Option Str) : Except MapErr ResourceLink :=
  -- Would conflict with how new extensions are stored
  if hasDollarExtSuffix filePath then .error .notImplemented
  else
    match contentType with
    | none =>
      -- Existing file: find a matching file in the parent folder
      match splitLastSlash filePath with
      | none => .error .internalServerError
      | some (folder, documentName) =>
        match (match list folder with
               | some files =>
                 files.find? (fun file =>
                   (folder ++ documentName).isPrefixOf file &&
                     optionalDollarDotTest (file.drop documentName.length))
               | none => none) with
        | some fileName =>
          .ok (mkDocumentLink identifier fileName (some (getContentTypeFromPath cfg fileName)))
        | none =>
          .ok (mkDocumentLink identifier filePath (some (getContentTypeFromPath cfg filePath)))
    | some ct =>
      -- If the extension matches a different content-type than the given
      -- one, a new extension is added to match the correct type
      if ct == getContentTypeFromPath cfg filePath then
        .ok (mkDocumentLink identifier filePath (some ct))
      else
        let e := extensionFor cfg ct
        if e.isEmpty then
          .ok (mkDocumentLink identifier (filePath ++ '$' :: '.' :: unknownMediaTypeExtension) none)
        else
          .ok (mkDocumentLink identifier (filePath ++ '$' :: '.' :: e) (some ct))

/-- Modelled from the spec: the base mapper container branch: containers
carry no content type. -/
def mkContainerLink (identifier filePath : Str) : ResourceLink :=
  { identifier := identifier, filePath := filePath, contentType := none,
    isMetadata := isMetadataPath filePath }

/-- Modelled from the spec: the base mapper `mapUrlToFilePath` wrapper
(spec 4.2 `resolveToStorage` steps 1-5): check the base prefix (else
NotFound), append the sidecar suffix for metadata requests, require a
leading slash (else BadRequest), reject `..` segments (else BadRequest),
build the candidate key `root ++ relative`, and dispatch on container
versus document identifiers.  Percent-decoding belongs to the routing
layer per spec section 6 and is not modelled. -/
def mapUrlToFilePath (cfg : MapperCfg) (list : Str → Option (List Str))
    (idPath : Str) (isMetadata : Bool) (contentType : Option Str) : Except MapErr ResourceLink :=
  if !(cfg.base.isPrefixOf idPath) then .error .notFound
  else
    let rel0 := idPath.drop cfg.base.length
    let rel := if isMetadata then rel0 ++ str ".meta" else rel0
    if !((['/'] : Str).isPrefixOf rel) then .error .badRequest
    else if containsSeq (str "/..") rel then .error .badRequest
    else
      let filePath := cfg.root ++ rel
      if isContainerPath idPath then .ok (mkContainerLink idPath filePath)
      else mapUrlToDocumentPath cfg list idPath filePath contentType

/-- The method `stripExtension`: remove a trailing `$.<extension>` (with `<extension>`
computed by `getExtension`) from a path. -/
def stripExtension (p : Str) : Str :=
  if !(getExtension p).isEmpty && ('$' :: '.' :: getExtension p).isSuffixOf p then
    p.take (p.length - ((getExtension p).length + 2))
  else p

/-- Modelled from the spec: base mapper `getDocumentUrl` composition
(spec 4.2 `resolveToIdentifier` step 5: base plus logical relative path);
the override first strips an appended `$.<ext>`. -/
def getDocumentUrl (cfg : MapperCfg) (relative : Str) : Str :=
  cfg.base ++ stripExtension relative

/-- Modelled from the spec: base mapper `getContainerUrl`: base plus the
relative path with a guaranteed trailing slash. -/
def getContainerUrl (cfg : MapperCfg) (relative : Str) : Str :=
  cfg.base ++ (if isContainerPath relative then relative else relative ++ ['/'])

/-- The method `mapFilePathToUrl` (the inverse mapping).  A key must start with the
internal root prefix or with the host template directory, otherwise an
InternalServerError is raised.  The relative part is the key minus the
root prefix; documents get a content type from the FULL key's extension;
keys ending in `.meta` are flagged as metadata and the suffix is trimmed
from the produced identifier. -/
def mapFilePathToUrl (cfg : MapperCfg) (filePath : Str) (isContainer : Bool) :
    Except MapErr ResourceLink :=
  if !(cfg.root.isPrefixOf filePath) && !(cfg.templatePath.isPrefixOf filePath) then
    .error .internalServerError
  else
    let relative := filePath.drop cfg.root.length
    let url0 := if isContainer then getContainerUrl cfg relative else getDocumentUrl cfg relative
    let contentType : Option Str :=
      if isContainer then none else some (getContentTypeFromPath cfg filePath)
    let isMeta := isMetadataPath filePath
    let url := if isMeta then url0.take (url0.length - (str ".meta").length) else url0
    .ok { identifier := url, filePath := filePath, contentType := contentType,
          isMetadata := isMeta }

end CloudExtensionBasedMapper

/-! ## The object-storage backend and `CloudBlobClient`

The minio backend is modelled as an association-list key/value store
together with a failure oracle (`Backend`): whether bucket
auto-provisioning (`createBucket`) fails, and which `putObject`,
`removeObject` and `statObject` calls fail.  All sizes are tiny, so the
association list keeps everything decidable. -/

/-- Failures reported by the storage backend. -/
inductive BackendErr where
  | notFound
  | connectivity
  | permission
  deriving DecidableEq, Repr

/-- The bucket contents: an association list from keys to object bytes. -/
structure CloudState where
  store : List (Str × Str)
  deriving DecidableEq, Repr

/-- Overwrite-or-insert a key. -/
def insertKV (l : List (Str × Str)) (k v : Str) : List (Str × Str) :=
  match l with
  | [] => [(k, v)]
  | (k1, v1) :: t => if k1 == k then (k, v) :: t else (k1, v1) :: insertKV t k v

/-- Remove a key (removing an absent key succeeds, as in S3). -/
def removeKV (l : List (Str × Str)) (k : Str) : List (Str × Str) :=
  match l with
  | [] => []
  | (k1, v1) :: t => if k1 == k then removeKV t k else (k1, v1) :: removeKV t k

/-- Look a key up. -/
def lookupKV (l : List (Str × Str)) (k : Str) : Option Str :=
  match l with
  | [] => none
  | (k1, v1) :: t => if k1 == k then some v1 else lookupKV t k

/-- The failure oracle for one run against the backend: the outcome of
bucket provisioning, and which put/delete/stat calls the backend fails. -/
structure Backend where
  ensureErr : Option BackendErr
  putFails : Str → Bool
  delFails : Str → Bool
  statErr : Str → Option BackendErr

/-- Errors escaping `CloudBlobClient`: either its own `NotFoundHttpError`
(`stats`/`read`/`list` convert backend failures into it) or a backend error
re-thrown unchanged by `createBucket`. -/
inductive ClientErr where
  | notFoundHttp
  | backendErr (e : BackendErr)
  deriving DecidableEq, Repr

/-- The stat record (`CloudBlobStat`); the fields the accessor consumes. -/
structure CloudBlobStat where
  size : Nat
  lastModified : Nat
  container : Bool
  deriving DecidableEq, Repr

/-- The raw minio `statObject`: an injected failure, or the object looked
up in the store (absence is a NotFound-class backend failure). -/
def statObject (b : Backend) (s : CloudState) (path : Str) : Except BackendErr CloudBlobStat :=
  match b.statErr path with
  | some e => .error e
  | none =>
    match lookupKV s.store path with
    | some content => .ok { size := content.length, lastModified := 0, container := false }
    | none => .error .notFound

namespace CloudBlobClient

/-- The method `containerFileName`: the marker/sidecar key of a container path. -/
def containerFileName (path : Str) : Str := path ++ str ".meta"

/-- Modelled from the spec: the serialized default container metadata
written by `containerFileContent` (two LDP type quads plus the path);
its exact bytes are irrelevant to the claims, only that the marker write
stores SOME content at the marker key. -/
def containerFileContent (path : Str) : Str := str "ldp-container-marker:" ++ path

/-- The method `CloudBlobClient.stats`: after bucket provisioning (whose failure
propagates unchanged), a path ending in `/` is statted at its marker
object `path + ".meta"` and flagged as a container; EVERY failure of the
stat itself is converted into `NotFoundHttpError`. -/
def stats (b : Backend) (s : CloudState) (path : Str) : Except ClientErr CloudBlobStat :=
  match b.ensureErr with
  | some e => .error (.backendErr e)
  | none =>
    match statObject b s (if isContainerPath path then containerFileName path else path) with
    | .ok st => .ok { st with container := isContainerPath path }
    | .error _ => .error .notFoundHttp

/-- The method `CloudBlobClient.write`: bucket provisioning failures propagate; a
failing `putObject` is caught and reported as `false` (NOT an exception). -/
def write (b : Backend) (s : CloudState) (path data : Str) :
    Except BackendErr (Bool × CloudState) :=
  match b.ensureErr with
  | some e => .error e
  | none =>
    if b.putFails path then .ok (false, s)
    else .ok (true, { store := insertKV s.store path data })

/-- The method `CloudBlobClient.writeContainer`: put the marker object
`path + ".meta"` with the default container content; `true` on a
successful put regardless of whether the marker already existed. -/
def writeContainer (b : Backend) (s : CloudState) (path : Str) :
    Except BackendErr (Bool × CloudState) :=
  match b.ensureErr with
  | some e => .error e
  | none =>
    let name := containerFileName path
    if b.putFails name then .ok (false, s)
    else .ok (true, { store := insertKV s.store name (containerFileContent path) })

/-- The method `CloudBlobClient.delete`: best-effort `removeObject` (no bucket
provisioning step); a failure is caught and reported as `false`. -/
def delete (b : Backend) (s : CloudState) (path : Str) : Bool × CloudState :=
  if b.delFails path then (false, s)
  else (true, { store := removeKV s.store path })

/-- The method `CloudBlobClient.list`: after bucket provisioning, list the keys under
the prefix (a trailing slash is ensured), excluding the prefix's own
marker object.  (minio listing is modelled as a scan of the store.) -/
def list (b : Backend) (s : CloudState) (path : Str) : Except BackendErr (List Str) :=
  match b.ensureErr with
  | some e => .error e
  | none =>
    let p := if isContainerPath path then path else path ++ ['/']
    .ok (((s.store.map Prod.fst).filter
      (fun k => p.isPrefixOf k && !(k == containerFileName p))))

end CloudBlobClient

/-! ## `CloudDataAccessor` -/

/-- Errors escaping the accessor: mapper errors or backend errors
re-thrown through the blob client. -/
inductive AccessorErr where
  | mapper (e : MapErr)
  | client (e : ClientErr)
  deriving DecidableEq, Repr

/-- An in-memory `RepresentationMetadata` record, split into the parts
`writeMetadataFile` treats differently: the storage-owned type quads and
modification timestamps it always removes, the content-type attribute it
conditionally removes, and all other (externally attached) quads. -/
structure MetadataRecord where
  typeResource : Bool
  typeContainer : Bool
  typeBasicContainer : Bool
  modifiedCount : Nat
  contentType : Option Str
  others : List Str
  deriving DecidableEq, Repr

/-- Modelled from the spec: the serialization of a quad list
(`serializeQuads`); deterministic and injective on the quad lists used
here. -/
def serializeQuads (quads : List Str) : Str :=
  quads.foldr (fun q acc => q ++ '\n' :: acc) []

/-- Modelled from the spec: the serialized content-type quad. -/
def contentTypeQuad (ct : Str) : Str := str "contentType:" ++ ct

namespace CloudDataAccessor

open CloudExtensionBasedMapper

/-- The mapper's view of the blob client listing, taken at the current
state: `none` when the listing call would throw (the mapper catches all
such failures). -/
def listOracle (b : Backend) (s : CloudState) : Str → Option (List Str) :=
  fun folder =>
    match CloudBlobClient.list b s folder with
    | .ok fs => some fs
    | .error _ => none

/-- The quads remaining in the metadata record after `writeMetadataFile`
removes the storage-owned ones (LDP type tags, `dc:modified`) and — for
containers or documents whose link carries a content type — the
content-type attribute. -/
def remainingQuads (link : ResourceLink) (md : MetadataRecord) : List Str :=
  md.others ++
    (match md.contentType with
     | some ct =>
       if isContainerPath link.filePath || link.contentType.isSome then []
       else [contentTypeQuad ct]
     | none => [])

/-- The method `writeMetadataFile`: map the resource identifier to its sidecar key;
if quads remain (or the resource is a container) serialize and write them
(the write's boolean result is ignored and `wroteMetadata` is reported as
`true`); otherwise delete any stale sidecar and report `false`. -/
def writeMetadataFile (b : Backend) (cfg : MapperCfg) (s : CloudState)
    (link : ResourceLink) (md : MetadataRecord) :
    Except AccessorErr (Bool × CloudState) :=
  match (mapUrlToFilePath cfg (listOracle b s) link.identifier true none).mapError
      AccessorErr.mapper with
  | .error e => .error e
  | .ok metadataLink =>
    if (remainingQuads link md).length > 0 || isContainerPath link.filePath then
      match CloudBlobClient.write b s metadataLink.filePath
          (serializeQuads (remainingQuads link md)) with
      | .ok (_, s1) => .ok (true, s1)
      | .error e => .error (.client (.backendErr e))
    else
      .ok (false, (CloudBlobClient.delete b s metadataLink.filePath).2)

/-- The method `verifyExistingExtension`: delete the file stored for the identifier
under the previous content-type mapping when it differs from the new key. -/
def verifyExistingExtension (b : Backend) (cfg : MapperCfg) (s : CloudState)
    (link : ResourceLink) : Except AccessorErr CloudState :=
  match (mapUrlToFilePath cfg (listOracle b s) link.identifier false none).mapError
      AccessorErr.mapper with
  | .error e => .error e
  | .ok oldLink =>
    if oldLink.filePath == link.filePath then .ok s
    else .ok (CloudBlobClient.delete b s oldLink.filePath).2

/-- The method `writeDocument`: resolve the target key with the record's content
type, delete a stale differently-extended file, write the sidecar, then
write the data.  Only an EXCEPTION from the data write triggers the
sidecar rollback and re-throw; the boolean returned by
`CloudBlobClient.write` is ignored. -/
def writeDocument (b : Backend) (cfg : MapperCfg) (s : CloudState)
    (idPath : Str) (data : Str) (md : MetadataRecord) : Except AccessorErr CloudState :=
  match (mapUrlToFilePath cfg (listOracle b s) idPath false md.contentType).mapError
      AccessorErr.mapper with
  | .error e => .error e
  | .ok link =>
    match verifyExistingExtension b cfg s link with
    | .error e => .error e
    | .ok s1 =>
      match writeMetadataFile b cfg s1 link md with
      | .error e => .error e
      | .ok (wroteMetadata, s2) =>
        match CloudBlobClient.write b s2 link.filePath data with
        | .ok (_success, s3) => .ok s3
        | .error e =>
          if wroteMetadata then
            match (mapUrlToFilePath cfg (listOracle b s2) idPath true none).mapError
                AccessorErr.mapper with
            | .error e2 => .error e2
            | .ok metaLink =>
              -- best-effort sidecar delete, then the original error is re-thrown;
              -- the state after a raised error is not observed by any caller here
              let _sAfterRollback := (CloudBlobClient.delete b s2 metaLink.filePath).2
              .error (.client (.backendErr e))
          else .error (.client (.backendErr e))

/-- The method `writeContainer`: map the container identifier, put the marker, and —
whenever the marker put reported success — write the metadata sidecar. -/
def writeContainer (b : Backend) (cfg : MapperCfg) (s : CloudState)
    (idPath : Str) (md : MetadataRecord) : Except AccessorErr CloudState :=
  match (mapUrlToFilePath cfg (listOracle b s) idPath false none).mapError
      AccessorErr.mapper with
  | .error e => .error e
  | .ok link =>
    match CloudBlobClient.writeContainer b s link.filePath with
    | .error e => .error (.client (.backendErr e))
    | .ok (written, s1) =>
      if written then
        match writeMetadataFile b cfg s1 link md with
        | .error e => .error e
        | .ok (_, s2) => .ok s2
      else .ok s1

end CloudDataAccessor

/-! ## A concrete configuration for witnesses and counterexamples

A small concrete extension/content-type table containing the entries the
repository's unit tests exercise (`txt`/`text-plain`, `ttl`/`text-turtle`
via `mime-types`, and the host default custom types `acl`/`meta` mapping
to `text/turtle`). -/

/-- Concrete `mime.lookup`. -/
def tblLookup : Str → Option Str := fun e =>
  if e = str "txt" then some (str "text/plain")
  else if e = str "ttl" then some (str "text/turtle")
  else none

/-- Concrete `mime.extension`. -/
def tblExtension : Str → Option Str := fun t =>
  if t = str "text/plain" then some (str "txt")
  else if t = str "text/turtle" then some (str "ttl")
  else none

/-- Concrete custom types (`DEFAULT_CUSTOM_TYPES`). -/
def tblCustomTypes : Str → Option Str := fun e =>
  if e = str "acl" then some (str "text/turtle")
  else if e = str "meta" then some (str "text/turtle")
  else none

/-- Concrete reversed custom table (last registration wins). -/
def tblCustomExtensions : Str → Option Str := fun t =>
  if t = str "text/turtle" then some (str "meta")
  else none

/-- A concrete mapper configuration. -/
def testCfg : MapperCfg :=
  { base := str "http://test.com"
    root := str "root"
    templatePath := str "/app/node_modules/@solid/community-server/templates"
    mimeLookup := tblLookup
    mimeExtension := tblExtension
    customTypes := tblCustomTypes
    customExtensions := tblCustomExtensions }

/-- A backend oracle with no injected failures. -/
def okBackend : Backend :=
  { ensureErr := none, putFails := fun _ => false, delFails := fun _ => false,
    statErr := fun _ => none }

/-- A backend whose `putObject` fails exactly for the data key
`root/foo$.txt` (the scenario of claim C1). -/
def failDataPut : Backend :=
  { okBackend with putFails := fun k => k == str "root/foo$.txt" }

/-- A metadata record carrying one externally attached attribute and a
supported content type. -/
def mdLikes : MetadataRecord :=
  { typeResource := true, typeContainer := false, typeBasicContainer := false,
    modifiedCount := 0, contentType := some (str "text/plain"), others := [str "likes:apples"] }

/-- First container metadata record (claim C2 scenario). -/
def mdFirst : MetadataRecord :=
  { typeResource := false, typeContainer := true, typeBasicContainer := true,
    modifiedCount := 1, contentType := none, others := [str "note:first"] }

/-- Second, different container metadata record (claim C2 scenario). -/
def mdSecond : MetadataRecord := { mdFirst with others := [str "note:second"] }

/-! ## List-level helper lemmas -/

theorem nil_isPrefixOf (l : Str) : ([] : Str).isPrefixOf l = true := by
  cases l <;> rfl

theorem cons_isPrefixOf_cons (a b : Char) (as bs : Str) :
    (a :: as).isPrefixOf (b :: bs) = (a == b && as.isPrefixOf bs) := rfl

theorem isPrefixOf_append_self (l r : Str) : l.isPrefixOf (l ++ r) = true := by
  induction l with
  | nil => exact nil_isPrefixOf r
  | cons c t ih => simp [cons_isPrefixOf_cons, ih]

theorem isPrefixOf_append_extend (l r m : Str) (h : l.isPrefixOf r = true) :
    l.isPrefixOf (r ++ m) = true := by
  induction l generalizing r with
  | nil => exact nil_isPrefixOf _
  | cons c t ih =>
    cases r with
    | nil => simp [List.isPrefixOf] at h
    | cons b bs =>
      rw [cons_isPrefixOf_cons] at h
      rw [List.cons_append, cons_isPrefixOf_cons]
      rcases Bool.and_eq_true_iff.mp h with ⟨h1, h2⟩
      rw [h1, ih bs h2]
      rfl

theorem drop_len_append (l r : Str) : (l ++ r).drop l.length = r := by
  induction l with
  | nil => rfl
  | cons c t ih => simp [ih]

theorem take_len_append (l r : Str) : (l ++ r).take l.length = l := by
  induction l with
  | nil => rfl
  | cons c t ih => simp [ih]

theorem takeWhile_append_all (p : Char → Bool) (l r : Str) (h : ∀ c ∈ l, p c = true) :
    (l ++ r).takeWhile p = l ++ r.takeWhile p := by
  induction l with
  | nil => rfl
  | cons c t ih =>
    have hc : p c = true := h c (by simp)
    simp [List.takeWhile, hc, ih (fun d hd => h d (by simp [hd]))]

theorem dropWhile_append_all (p : Char → Bool) (l r : Str) (h : ∀ c ∈ l, p c = true) :
    (l ++ r).dropWhile p = r.dropWhile p := by
  induction l with
  | nil => rfl
  | cons c t ih =>
    have hc : p c = true := h c (by simp)
    simp [List.dropWhile, hc, ih (fun d hd => h d (by simp [hd]))]

theorem singletonPrefix_append (c : Char) (l m : Str) (h : ([c] : Str).isPrefixOf l = true) :
    ([c] : Str).isPrefixOf (l ++ m) = true :=
  isPrefixOf_append_extend [c] l m h

theorem isContainerPath_append (l r : Str) (h : r ≠ []) :
    isContainerPath (l ++ r) = isContainerPath r := by
  unfold isContainerPath
  simp only [List.isSuffixOf, List.reverse_append]
  cases hr : r.reverse with
  | nil => exact absurd (by simpa using congrArg List.reverse hr) h
  | cons c t => simp [List.isPrefixOf]

theorem lookupKV_insertKV_self (l : List (Str × Str)) (k v : Str) :
    lookupKV (insertKV l k v) k = some v := by
  induction l with
  | nil => simp [insertKV, lookupKV]
  | cons p t ih =>
    by_cases h : p.1 = k
    · simp [insertKV, lookupKV, h]
    · have hb : (p.1 == k) = false := by simp [h]
      simp [insertKV, lookupKV, hb, ih]

/-! ## Lemmas about the path scanners -/

theorem optionalDollarDotTest_true (s : Str) : optionalDollarDotTest s = true := by
  unfold optionalDollarDotTest
  apply List.any_eq_true.mpr
  exact ⟨s.length, List.mem_range.mpr (Nat.lt_succ_self _),
    by simp [matchesOptDollarDotToEnd]⟩

/-- The function `find?` respects pointwise equal predicates. -/
theorem list_find?_congr {α : Type} (p q : α → Bool) (h : ∀ a, p a = q a) :
    ∀ l : List α, l.find? p = l.find? q := by
  intro l
  induction l with
  | nil => rfl
  | cons a t ih =>
    simp only [List.find?]
    rw [h a]
    cases q a <;> simp [ih]

theorem splitLastSlash_recombine (p folder name : Str)
    (h : splitLastSlash p = some (folder, name)) : folder ++ name = p := by
  unfold splitLastSlash at h
  cases hd : (p.reverse.dropWhile (fun c => !(c == '/'))).isEmpty with
  | true => rw [hd] at h; simp at h
  | false =>
    rw [hd] at h
    simp only [Bool.false_eq_true, if_false, Option.some.injEq, Prod.mk.injEq] at h
    obtain ⟨h1, h2⟩ := h
    have hsplit := List.takeWhile_append_dropWhile
      (p := fun c : Char => !(c == '/')) (l := p.reverse)
    calc folder ++ name
        = (p.reverse.dropWhile (fun c => !(c == '/'))).reverse ++
            (p.reverse.takeWhile (fun c => !(c == '/'))).reverse := by rw [← h1, ← h2]
      _ = (p.reverse.takeWhile (fun c => !(c == '/')) ++
            p.reverse.dropWhile (fun c => !(c == '/'))).reverse := by
            rw [List.reverse_append]
      _ = p := by rw [hsplit, List.reverse_reverse]

/-- The reverse of a path with an appended reconciliation suffix. -/
theorem reverse_append_marker (xs e : Str) :
    (xs ++ '$' :: '.' :: e).reverse = e.reverse ++ '.' :: '$' :: xs.reverse := by
  simp

theorem getExtension_append_marker (xs e : Str) (hne : e ≠ [])
    (hch : ∀ c ∈ e, ¬(c = '.') ∧ ¬(c = '/')) :
    getExtension (xs ++ '$' :: '.' :: e) = e := by
  have hall : ∀ c ∈ e.reverse, (!(c == '.') && !(c == '/')) = true := by
    intro c hc
    obtain ⟨h1, h2⟩ := hch c (List.mem_reverse.mp hc)
    simp [h1, h2]
  have hemp : e.reverse.isEmpty = false := by
    cases he : e.reverse with
    | nil => exact absurd (by simpa using congrArg List.reverse he) hne
    | cons c t => rfl
  unfold getExtension
  rw [reverse_append_marker, takeWhile_append_all _ _ _ hall,
    dropWhile_append_all _ _ _ hall]
  rw [List.dropWhile_cons, List.takeWhile_cons]
  simp [hemp]

theorem isSuffixOf_append_self (l r : Str) : r.isSuffixOf (l ++ r) = true := by
  simp only [List.isSuffixOf, List.reverse_append]
  exact isPrefixOf_append_self _ _

theorem stripExtension_append_marker (xs e : Str) (hne : e ≠ [])
    (hch : ∀ c ∈ e, ¬(c = '.') ∧ ¬(c = '/')) :
    CloudExtensionBasedMapper.stripExtension (xs ++ '$' :: '.' :: e) = xs := by
  unfold CloudExtensionBasedMapper.stripExtension
  rw [getExtension_append_marker xs e hne hch]
  have hsuf : ('$' :: '.' :: e).isSuffixOf (xs ++ '$' :: '.' :: e) = true :=
    isSuffixOf_append_self xs _
  have hemp : e.isEmpty = false := by
    cases e with
    | nil => exact absurd rfl hne
    | cons c t => rfl
  have hlen : (xs ++ '$' :: '.' :: e).length - (e.length + 2) = xs.length := by
    simp only [List.length_append, List.length_cons]
    omega
  simp only [hemp, hsuf, Bool.not_false, Bool.true_and, if_true, hlen]
  exact take_len_append xs _

theorem stripExtension_eq_self (p : Str)
    (h : (!(getExtension p).isEmpty && ('$' :: '.' :: getExtension p).isSuffixOf p) = false) :
    CloudExtensionBasedMapper.stripExtension p = p := by
  unfold CloudExtensionBasedMapper.stripExtension
  simp only [h, Bool.false_eq_true, if_false]

/-- Auxiliary: the reversed sidecar suffix `atem.` is never a prefix of a
dot-free block followed by `.`, `$` — unless the block is exactly `atem`. -/
theorem metaRevNotPrefix (l t : Str) (h1 : ∀ c ∈ l, ¬(c = '.'))
    (h2 : l ≠ ['a', 't', 'e', 'm']) :
    (['a', 't', 'e', 'm', '.'] : Str).isPrefixOf (l ++ '.' :: '$' :: t) = false := by
  match l with
  | [] =>
    have hx : (('a' : Char) == '.') = false := by decide
    simp only [List.nil_append, cons_isPrefixOf_cons, hx, Bool.false_and]
  | [c1] =>
    have hx : (('t' : Char) == '.') = false := by decide
    simp only [List.cons_append, List.nil_append, cons_isPrefixOf_cons, hx,
      Bool.false_and, Bool.and_false]
  | [c1, c2] =>
    have hx : (('e' : Char) == '.') = false := by decide
    simp only [List.cons_append, List.nil_append, cons_isPrefixOf_cons, hx,
      Bool.false_and, Bool.and_false]
  | [c1, c2, c3] =>
    have hx : (('m' : Char) == '.') = false := by decide
    simp only [List.cons_append, List.nil_append, cons_isPrefixOf_cons, hx,
      Bool.false_and, Bool.and_false]
  | [c1, c2, c3, c4] =>
    by_contra hcon
    rw [Bool.not_eq_false] at hcon
    simp only [List.cons_append, List.nil_append, cons_isPrefixOf_cons] at hcon
    rcases Bool.and_eq_true_iff.mp hcon with ⟨b1, hcon⟩
    rcases Bool.and_eq_true_iff.mp hcon with ⟨b2, hcon⟩
    rcases Bool.and_eq_true_iff.mp hcon with ⟨b3, hcon⟩
    rcases Bool.and_eq_true_iff.mp hcon with ⟨b4, hcon⟩
    exact h2 (by rw [← eq_of_beq b1, ← eq_of_beq b2, ← eq_of_beq b3, ← eq_of_beq b4])
  | c1 :: c2 :: c3 :: c4 :: c5 :: rest =>
    have h5 : (('.' : Char) == c5) = false := by
      have hne := h1 c5 (by simp)
      rw [beq_eq_false_iff_ne]
      exact fun hcon => hne hcon.symm
    simp only [List.cons_append, cons_isPrefixOf_cons, h5,
      Bool.false_and, Bool.and_false]

/-- A path with a freshly appended reconciliation suffix `$.e` is a sidecar
path only when `e` is literally `meta`. -/
theorem isMetadataPath_append_marker (xs e : Str)
    (hch : ∀ c ∈ e, ¬(c = '.') ∧ ¬(c = '/')) (hm : e ≠ str "meta") :
    isMetadataPath (xs ++ '$' :: '.' :: e) = false := by
  unfold isMetadataPath
  simp only [List.isSuffixOf]
  rw [reverse_append_marker]
  have hrev : (str ".meta").reverse = ['a', 't', 'e', 'm', '.'] := rfl
  rw [hrev]
  apply metaRevNotPrefix
  · intro c hc
    exact ((hch c (List.mem_reverse.mp hc)).1)
  · intro hcon
    apply hm
    have := congrArg List.reverse hcon
    simpa using this

/-- Content type derived from a key with a freshly appended suffix. -/
theorem getCT_append_marker (cfg : MapperCfg) (xs e : Str) (hne : e ≠ [])
    (hch : ∀ c ∈ e, ¬(c = '.') ∧ ¬(c = '/')) :
    CloudExtensionBasedMapper.getContentTypeFromPath cfg (xs ++ '$' :: '.' :: e) =
      firstTruthy [cfg.mimeLookup (e.map Char.toLower), cfg.customTypes (e.map Char.toLower)]
        octetStream := by
  unfold CloudExtensionBasedMapper.getContentTypeFromPath
  rw [getExtension_append_marker xs e hne hch]

/-! ## Counting reconciliation marker occurrences (claim C6) -/

/-- Does a marker-extension tail (`.` plus a word character) start here? -/
def markerPeek : Str → Nat
  | d1 :: d2 :: _ => if d1 == '.' && isWordChar d2 then 1 else 0
  | _ => 0

/-- Does a marker occurrence (`$`, `.`, word character) start at this head? -/
def markerStart (c : Char) (rest : Str) : Nat :=
  if c == '$' then markerPeek rest else 0

/-- Number of positions at which the reconciliation marker sequence (a `$`
immediately followed by `.` and a word character starting an extension)
occurs in the string. -/
def markerCount : Str → Nat
  | [] => 0
  | c :: rest => markerStart c rest + markerCount rest

theorem markerPeek_two (d1 d2 : Char) (l : Str) :
    markerPeek (d1 :: d2 :: l) = if d1 == '.' && isWordChar d2 then 1 else 0 := rfl

theorem markerPeek_le_one (l : Str) : markerPeek l ≤ 1 := by
  match l with
  | [] => exact Nat.zero_le 1
  | [d] => exact Nat.zero_le 1
  | d1 :: d2 :: t =>
    rw [markerPeek_two]
    split <;> omega

theorem markerCount_cons (c : Char) (rest : Str) :
    markerCount (c :: rest) = markerStart c rest + markerCount rest := rfl

theorem markerCount_zero_of_no_dollar (l : Str) (h : '$' ∉ l) : markerCount l = 0 := by
  induction l with
  | nil => rfl
  | cons c rest ih =>
    have hc : (c == '$') = false := by
      have hne : ¬(c = '$') := fun hcon => h (by rw [hcon]; simp)
      simp [hne]
    have hrest : '$' ∉ rest := fun hcon => h (by simp [hcon])
    rw [markerCount_cons, ih hrest, markerStart, hc]
    rfl

theorem markerPeek_append_marker (xs1 e : Str) (hp : markerPeek xs1 = 0) :
    markerPeek (xs1 ++ '$' :: '.' :: e) = 0 := by
  match xs1 with
  | [] =>
    rw [List.nil_append, markerPeek_two]
    decide
  | [x] =>
    rw [List.cons_append, List.nil_append, markerPeek_two]
    have hw : isWordChar '$' = false := by decide
    rw [hw, Bool.and_false]
    rfl
  | x :: y :: t =>
    rw [List.cons_append, List.cons_append, markerPeek_two]
    rw [markerPeek_two] at hp
    exact hp

theorem markerCount_append_marker (xs e : Str) (h0 : markerCount xs = 0)
    (hd : '$' ∉ e) : markerCount (xs ++ '$' :: '.' :: e) ≤ 1 := by
  induction xs with
  | nil =>
    rw [List.nil_append, markerCount_cons]
    have he : markerCount ('.' :: e) = 0 := by
      apply markerCount_zero_of_no_dollar
      intro hcon
      rcases List.mem_cons.mp hcon with h1 | h1
      · exact absurd h1.symm (by decide)
      · exact hd h1
    rw [he, markerStart]
    have hds : (('$' : Char) == '$') = true := by decide
    rw [hds, if_pos rfl]
    have := markerPeek_le_one ('.' :: e)
    omega
  | cons c xs1 ih =>
    rw [List.cons_append, markerCount_cons]
    rw [markerCount_cons] at h0
    have hx1 : markerCount xs1 = 0 := by omega
    have hst0 : markerStart c xs1 = 0 := by omega
    have hst : markerStart c (xs1 ++ '$' :: '.' :: e) = 0 := by
      unfold markerStart at hst0 ⊢
      cases hc : (c == '$') with
      | false => rfl
      | true =>
        rw [hc, if_pos rfl] at hst0
        rw [if_pos rfl]
        exact markerPeek_append_marker xs1 e hst0
    rw [hst]
    have := ih hx1
    omega

/-! ## Reduction lemmas for the mapper -/

theorem rel_ne_nil_of_slash (rel : Str) (hsl : (['/'] : Str).isPrefixOf rel = true) :
    rel ≠ [] := by
  cases rel with
  | nil => simp [List.isPrefixOf] at hsl
  | cons c t => exact List.cons_ne_nil c t

theorem isContainerPath_false_of_dollar (p : Str) (h : hasDollarExtSuffix p = true) :
    isContainerPath p = false := by
  unfold hasDollarExtSuffix at h
  unfold isContainerPath
  simp only [List.isSuffixOf]
  cases hp : p.reverse with
  | nil => rw [hp] at h; simp at h
  | cons c t =>
    rw [hp] at h
    have hcslash : (c = '/') → False := by
      intro hc
      subst hc
      rw [List.takeWhile_cons] at h
      have hw : isWordChar '/' = false := by decide
      rw [hw] at h
      simp at h
    have hne : (('/' : Char) == c) = false := by
      rw [beq_eq_false_iff_ne]
      exact fun hcon => hcslash hcon.symm
    rw [show (['/'] : Str).reverse = (['/'] : Str) from rfl, cons_isPrefixOf_cons, hne]
    rfl

namespace CloudExtensionBasedMapper

theorem mapUrlToFilePath_document_reduce (cfg : MapperCfg)
    (list : Str → Option (List Str)) (rel : Str) (ct : Option Str)
    (hsl : (['/'] : Str).isPrefixOf rel = true)
    (hdd : containsSeq (str "/..") rel = false)
    (hnc : isContainerPath (cfg.base ++ rel) = false) :
    mapUrlToFilePath cfg list (cfg.base ++ rel) false ct =
      mapUrlToDocumentPath cfg list (cfg.base ++ rel) (cfg.root ++ rel) ct := by
  unfold mapUrlToFilePath
  simp only [isPrefixOf_append_self, drop_len_append, Bool.not_true, if_false,
    Bool.false_eq_true, hsl, hdd, hnc, Bool.not_false]

theorem mapUrlToFilePath_container_reduce (cfg : MapperCfg)
    (list : Str → Option (List Str)) (rel : Str)
    (hsl : (['/'] : Str).isPrefixOf rel = true)
    (hdd : containsSeq (str "/..") rel = false)
    (hc : isContainerPath (cfg.base ++ rel) = true) :
    mapUrlToFilePath cfg list (cfg.base ++ rel) false none =
      .ok (mkContainerLink (cfg.base ++ rel) (cfg.root ++ rel)) := by
  unfold mapUrlToFilePath
  simp only [isPrefixOf_append_self, drop_len_append, Bool.not_true, if_false,
    Bool.false_eq_true, hsl, hdd, hc, Bool.not_false]
  simp

theorem mapUrlToFilePath_container_meta_reduce (cfg : MapperCfg)
    (list : Str → Option (List Str)) (rel : Str)
    (hsl : (['/'] : Str).isPrefixOf rel = true)
    (hdd2 : containsSeq (str "/..") (rel ++ str ".meta") = false)
    (hc : isContainerPath (cfg.base ++ rel) = true) :
    mapUrlToFilePath cfg list (cfg.base ++ rel) true none =
      .ok (mkContainerLink (cfg.base ++ rel) (cfg.root ++ (rel ++ str ".meta"))) := by
  have hsl2 : (['/'] : Str).isPrefixOf (rel ++ str ".meta") = true :=
    singletonPrefix_append '/' rel _ hsl
  unfold mapUrlToFilePath
  simp only [isPrefixOf_append_self, drop_len_append, Bool.not_true, if_false,
    Bool.false_eq_true, hsl2, hdd2, hc, Bool.not_false, if_true]

theorem mkDocumentLink_identifier (idPath fp : Str) (ct : Option Str) :
    (mkDocumentLink idPath fp ct).identifier = idPath := rfl

theorem mkDocumentLink_filePath (idPath fp : Str) (ct : Option Str) :
    (mkDocumentLink idPath fp ct).filePath = fp := rfl

theorem mkDocumentLink_contentType (idPath fp : Str) (ct : Option Str) :
    (mkDocumentLink idPath fp ct).contentType = ct := rfl

theorem mkContainerLink_identifier (idPath fp : Str) :
    (mkContainerLink idPath fp).identifier = idPath := rfl

theorem mkContainerLink_filePath (idPath fp : Str) :
    (mkContainerLink idPath fp).filePath = fp := rfl

theorem mkContainerLink_contentType (idPath fp : Str) :
    (mkContainerLink idPath fp).contentType = none := rfl

theorem mapDoc_write_reduce (cfg : MapperCfg) (list : Str → Option (List Str))
    (idPath fp T : Str) (hdollar : hasDollarExtSuffix fp = false) :
    mapUrlToDocumentPath cfg list idPath fp (some T) =
      (if T == getContentTypeFromPath cfg fp then
        .ok (mkDocumentLink idPath fp (some T))
      else if (extensionFor cfg T).isEmpty then
        .ok (mkDocumentLink idPath (fp ++ '$' :: '.' :: unknownMediaTypeExtension) none)
      else
        .ok (mkDocumentLink idPath (fp ++ '$' :: '.' :: extensionFor cfg T) (some T))) := by
  unfold mapUrlToDocumentPath
  simp only [hdollar, Bool.false_eq_true, if_false]

theorem mapDoc_dollar_reject (cfg : MapperCfg) (list : Str → Option (List Str))
    (idPath fp : Str) (ct : Option Str) (hdollar : hasDollarExtSuffix fp = true) :
    mapUrlToDocumentPath cfg list idPath fp ct = .error .notImplemented := by
  unfold mapUrlToDocumentPath
  simp only [hdollar, if_true]

theorem mapDoc_read_reduce (cfg : MapperCfg) (list : Str → Option (List Str))
    (idPath fp folder name : Str) (files : List Str)
    (hdollar : hasDollarExtSuffix fp = false)
    (hsplit : splitLastSlash fp = some (folder, name))
    (hlist : list folder = some files) :
    mapUrlToDocumentPath cfg list idPath fp none =
      (match files.find? (fun file => fp.isPrefixOf file) with
       | some found => .ok (mkDocumentLink idPath found (some (getContentTypeFromPath cfg found)))
       | none => .ok (mkDocumentLink idPath fp (some (getContentTypeFromPath cfg fp)))) := by
  unfold mapUrlToDocumentPath
  simp only [hdollar, Bool.false_eq_true, if_false, hsplit, hlist]
  have hpred : ∀ file : Str,
      ((folder ++ name).isPrefixOf file && optionalDollarDotTest (file.drop name.length)) =
        fp.isPrefixOf file := by
    intro file
    rw [optionalDollarDotTest_true, Bool.and_true, splitLastSlash_recombine fp folder name hsplit]
  rw [list_find?_congr _ _ hpred files]

theorem mapDoc_read_listfail_reduce (cfg : MapperCfg) (list : Str → Option (List Str))
    (idPath fp folder name : Str)
    (hdollar : hasDollarExtSuffix fp = false)
    (hsplit : splitLastSlash fp = some (folder, name))
    (hlist : list folder = none) :
    mapUrlToDocumentPath cfg list idPath fp none =
      .ok (mkDocumentLink idPath fp (some (getContentTypeFromPath cfg fp))) := by
  unfold mapUrlToDocumentPath
  simp only [hdollar, Bool.false_eq_true, if_false, hsplit, hlist]

theorem mapFilePathToUrl_document_reduce (cfg : MapperCfg) (fp : Str)
    (hroot : cfg.root.isPrefixOf fp = true)
    (hmetafp : isMetadataPath fp = false) :
    mapFilePathToUrl cfg fp false =
      .ok { identifier := cfg.base ++ stripExtension (fp.drop cfg.root.length),
            filePath := fp,
            contentType := some (getContentTypeFromPath cfg fp),
            isMetadata := false } := by
  unfold mapFilePathToUrl
  simp only [hroot, hmetafp, Bool.not_true, Bool.false_and, Bool.false_eq_true, if_false,
    getDocumentUrl]

end CloudExtensionBasedMapper

/-! ## Claim theorems -/

open CloudExtensionBasedMapper in
/-- Claim C5: on the write path (content type supplied), for every valid
document identifier `base ++ rel`: if the candidate key's extension already
implies the supplied content type `T`, the returned storage key is the
unmodified candidate and the returned content type is `T`; if it does not
match and the table has an extension for `T`, the returned key is the
candidate plus the reconciliation marker and that extension (content type
still `T`); if the table has no extension for `T`, the returned key is the
candidate plus the marker and the fixed fallback extension, and the
returned content type is absent. -/
theorem writePath_spec (cfg : MapperCfg) (list : Str → Option (List Str)) (rel T : Str)
    (hsl : (['/'] : Str).isPrefixOf rel = true)
    (hdd : containsSeq (str "/..") rel = false)
    (hnc : isContainerPath (cfg.base ++ rel) = false)
    (hdollar : hasDollarExtSuffix (cfg.root ++ rel) = false) :
    mapUrlToFilePath cfg list (cfg.base ++ rel) false (some T) =
      (if T == getContentTypeFromPath cfg (cfg.root ++ rel) then
        .ok (mkDocumentLink (cfg.base ++ rel) (cfg.root ++ rel) (some T))
      else if (extensionFor cfg T).isEmpty then
        .ok (mkDocumentLink (cfg.base ++ rel)
          ((cfg.root ++ rel) ++ '$' :: '.' :: unknownMediaTypeExtension) none)
      else
        .ok (mkDocumentLink (cfg.base ++ rel)
          ((cfg.root ++ rel) ++ '$' :: '.' :: extensionFor cfg T) (some T))) := by
  rw [mapUrlToFilePath_document_reduce cfg list rel (some T) hsl hdd hnc,
    mapDoc_write_reduce cfg list _ _ T hdollar]

open CloudExtensionBasedMapper in
/-- Witness for C5 at the spec scenario: writing `/test.txt` as
`text/turtle` appends `$.ttl`. -/
theorem writePath_spec_witness :
    ((['/'] : Str).isPrefixOf (str "/test.txt") = true ∧
      containsSeq (str "/..") (str "/test.txt") = false ∧
      isContainerPath (testCfg.base ++ str "/test.txt") = false ∧
      hasDollarExtSuffix (testCfg.root ++ str "/test.txt") = false) ∧
    mapUrlToFilePath testCfg (fun _ => none) (testCfg.base ++ str "/test.txt") false
        (some (str "text/turtle")) =
      (if str "text/turtle" == getContentTypeFromPath testCfg (testCfg.root ++ str "/test.txt") then
        .ok (mkDocumentLink (testCfg.base ++ str "/test.txt")
          (testCfg.root ++ str "/test.txt") (some (str "text/turtle")))
      else if (extensionFor testCfg (str "text/turtle")).isEmpty then
        .ok (mkDocumentLink (testCfg.base ++ str "/test.txt")
          ((testCfg.root ++ str "/test.txt") ++ '$' :: '.' :: unknownMediaTypeExtension) none)
      else
        .ok (mkDocumentLink (testCfg.base ++ str "/test.txt")
          ((testCfg.root ++ str "/test.txt") ++ '$' :: '.' :: extensionFor testCfg (str "text/turtle"))
          (some (str "text/turtle")))) :=
  ⟨by decide, writePath_spec testCfg (fun _ => none) (str "/test.txt") (str "text/turtle")
    (by decide) (by decide) (by decide) (by decide)⟩

open CloudExtensionBasedMapper in
/-- Claim C8: an identifier whose final segment already matches the
reserved reconciliation marker pattern (`$` immediately followed by a dot
and an extension) is rejected with NotImplemented, regardless of whether a
content type argument is supplied. -/
theorem dollarSuffix_identifier_rejected (cfg : MapperCfg)
    (list : Str → Option (List Str)) (rel : Str) (ct : Option Str)
    (hsl : (['/'] : Str).isPrefixOf rel = true)
    (hdd : containsSeq (str "/..") rel = false)
    (hdollar : hasDollarExtSuffix (cfg.root ++ rel) = true) :
    mapUrlToFilePath cfg list (cfg.base ++ rel) false ct = .error .notImplemented := by
  have hrel : rel ≠ [] := rel_ne_nil_of_slash rel hsl
  have h1 : isContainerPath (cfg.root ++ rel) = false :=
    isContainerPath_false_of_dollar _ hdollar
  have h2 : isContainerPath (cfg.base ++ rel) = false := by
    rw [isContainerPath_append _ _ hrel]
    rw [isContainerPath_append _ _ hrel] at h1
    exact h1
  rw [mapUrlToFilePath_document_reduce cfg list rel ct hsl hdd h2]
  exact mapDoc_dollar_reject cfg list _ _ ct hdollar

open CloudExtensionBasedMapper in
/-- Witness for C8 at the spec scenario identifier `test$.txt` (with and
without a content type the check fires; here: without). -/
theorem dollarSuffix_identifier_rejected_witness :
    ((['/'] : Str).isPrefixOf (str "/test$.txt") = true ∧
      containsSeq (str "/..") (str "/test$.txt") = false ∧
      hasDollarExtSuffix (testCfg.root ++ str "/test$.txt") = true) ∧
    mapUrlToFilePath testCfg (fun _ => none) (testCfg.base ++ str "/test$.txt") false none =
      .error .notImplemented :=
  ⟨by decide, dollarSuffix_identifier_rejected testCfg (fun _ => none) (str "/test$.txt") none
    (by decide) (by decide) (by decide)⟩

open CloudExtensionBasedMapper in
/-- Claim C9: on the read path, when the parent-prefix listing fails, the
mapper does not propagate the failure: it returns the unmodified candidate
key with the content type derived from the candidate's own extension (or
the default resolver). -/
theorem readPath_listing_failure_fallback (cfg : MapperCfg)
    (list : Str → Option (List Str)) (rel folder name : Str)
    (hsl : (['/'] : Str).isPrefixOf rel = true)
    (hdd : containsSeq (str "/..") rel = false)
    (hnc : isContainerPath (cfg.base ++ rel) = false)
    (hdollar : hasDollarExtSuffix (cfg.root ++ rel) = false)
    (hsplit : splitLastSlash (cfg.root ++ rel) = some (folder, name))
    (hlist : list folder = none) :
    mapUrlToFilePath cfg list (cfg.base ++ rel) false none =
      .ok (mkDocumentLink (cfg.base ++ rel) (cfg.root ++ rel)
        (some (getContentTypeFromPath cfg (cfg.root ++ rel)))) := by
  rw [mapUrlToFilePath_document_reduce cfg list rel none hsl hdd hnc]
  exact mapDoc_read_listfail_reduce cfg list _ _ folder name hdollar hsplit hlist

open CloudExtensionBasedMapper in
/-- Witness for C9 at the spec scenario: reading `/not-exist/test.txt`
while the parent listing fails still yields `text/plain` for the unmodified
candidate. -/
theorem readPath_listing_failure_fallback_witness :
    ((['/'] : Str).isPrefixOf (str "/not-exist/test.txt") = true ∧
      splitLastSlash (testCfg.root ++ str "/not-exist/test.txt") =
        some (str "root/not-exist/", str "test.txt") ∧
      (fun _ : Str => (none : Option (List Str))) (str "root/not-exist/") = none) ∧
    mapUrlToFilePath testCfg (fun _ => none) (testCfg.base ++ str "/not-exist/test.txt") false none =
      .ok (mkDocumentLink (testCfg.base ++ str "/not-exist/test.txt")
        (testCfg.root ++ str "/not-exist/test.txt")
        (some (getContentTypeFromPath testCfg (testCfg.root ++ str "/not-exist/test.txt")))) :=
  ⟨by decide, readPath_listing_failure_fallback testCfg (fun _ => none)
    (str "/not-exist/test.txt") (str "root/not-exist/") (str "test.txt")
    (by decide) (by decide) (by decide) (by decide) (by decide) rfl⟩

open CloudExtensionBasedMapper in
/-- Counterexample to C4 as stated: with the parent listing containing the
single entry `root/c/test.meta`, the mapper maps the identifier for
candidate `root/c/test` to that entry, although the entry neither equals
the candidate nor continues with the reconciliation marker (it continues
with `.meta`): the unanchored filter regex accepts every continuation. -/
theorem readPath_adopts_nonmatching_entry :
    (mapUrlToFilePath testCfg
        (fun f => if f = str "root/c/" then some [str "root/c/test.meta"] else none)
        (str "http://test.com/c/test") false none).map (fun l => l.filePath) =
      .ok (str "root/c/test.meta") ∧
    str "root/c/test.meta" ≠ str "root/c/test" ∧
    (['$'] : Str).isPrefixOf ((str "root/c/test.meta").drop (str "root/c/test").length) = false := by
  decide

open CloudExtensionBasedMapper in
/-- Claim C4 (amended): on the read path the mapper adopts THE FIRST listed
entry whose name merely starts with the candidate key; the additional
marker-extension condition of the filter is vacuous (its regular expression
is unanchored and its optional group lets it match every string), so
entries continuing with arbitrary characters are adopted too. -/
theorem readPath_adoption_startsWith (cfg : MapperCfg)
    (list : Str → Option (List Str)) (rel folder name : Str) (files : List Str)
    (hsl : (['/'] : Str).isPrefixOf rel = true)
    (hdd : containsSeq (str "/..") rel = false)
    (hnc : isContainerPath (cfg.base ++ rel) = false)
    (hdollar : hasDollarExtSuffix (cfg.root ++ rel) = false)
    (hsplit : splitLastSlash (cfg.root ++ rel) = some (folder, name))
    (hlist : list folder = some files) :
    mapUrlToFilePath cfg list (cfg.base ++ rel) false none =
      (match files.find? (fun file => (cfg.root ++ rel).isPrefixOf file) with
       | some found =>
         .ok (mkDocumentLink (cfg.base ++ rel) found (some (getContentTypeFromPath cfg found)))
       | none =>
         .ok (mkDocumentLink (cfg.base ++ rel) (cfg.root ++ rel)
           (some (getContentTypeFromPath cfg (cfg.root ++ rel))))) := by
  rw [mapUrlToFilePath_document_reduce cfg list rel none hsl hdd hnc]
  exact mapDoc_read_reduce cfg list _ _ folder name files hdollar hsplit hlist

open CloudExtensionBasedMapper in
/-- Witness for the amended C4: the `.meta` entry is adopted because it
starts with the candidate. -/
theorem readPath_adoption_startsWith_witness :
    ((['/'] : Str).isPrefixOf (str "/c/test") = true ∧
      splitLastSlash (testCfg.root ++ str "/c/test") = some (str "root/c/", str "test") ∧
      (str "root/c/test").isPrefixOf (str "root/c/test.meta") = true) ∧
    mapUrlToFilePath testCfg
        (fun f => if f = str "root/c/" then some [str "root/c/test.meta"] else none)
        (testCfg.base ++ str "/c/test") false none =
      (match [str "root/c/test.meta"].find?
          (fun file => (testCfg.root ++ str "/c/test").isPrefixOf file) with
       | some found =>
         .ok (mkDocumentLink (testCfg.base ++ str "/c/test") found
           (some (getContentTypeFromPath testCfg found)))
       | none =>
         .ok (mkDocumentLink (testCfg.base ++ str "/c/test")
           (testCfg.root ++ str "/c/test")
           (some (getContentTypeFromPath testCfg (testCfg.root ++ str "/c/test"))))) :=
  ⟨by decide, readPath_adoption_startsWith testCfg
    (fun f => if f = str "root/c/" then some [str "root/c/test.meta"] else none)
    (str "/c/test") (str "root/c/") (str "test") [str "root/c/test.meta"]
    (by decide) (by decide) (by decide) (by decide) (by decide) (by decide)⟩

open CloudExtensionBasedMapper in
/-- Counterexample to C7 as stated: a storage key under the host template
directory does not start with the configured root prefix, yet the inverse
mapping succeeds instead of failing with InternalServerError. -/
theorem mapFilePathToUrl_template_escape :
    testCfg.root.isPrefixOf
        (str "/app/node_modules/@solid/community-server/templates/x.html") = false ∧
    mapFilePathToUrl testCfg
        (str "/app/node_modules/@solid/community-server/templates/x.html") false ≠
      .error .internalServerError := by
  decide

open CloudExtensionBasedMapper in
/-- Claim C7 (amended): the inverse mapping fails with InternalServerError
exactly when the storage key starts with NEITHER the configured root prefix
NOR the host template directory prefix. -/
theorem mapFilePathToUrl_outside_root_internal_error (cfg : MapperCfg)
    (fp : Str) (isContainer : Bool)
    (hroot : cfg.root.isPrefixOf fp = false)
    (htpl : cfg.templatePath.isPrefixOf fp = false) :
    mapFilePathToUrl cfg fp isContainer = .error .internalServerError := by
  unfold mapFilePathToUrl
  simp [hroot, htpl]

open CloudExtensionBasedMapper in
/-- Witness for the amended C7 (the unit-test input `invalid`). -/
theorem mapFilePathToUrl_outside_root_internal_error_witness :
    (testCfg.root.isPrefixOf (str "invalid") = false ∧
      testCfg.templatePath.isPrefixOf (str "invalid") = false) ∧
    mapFilePathToUrl testCfg (str "invalid") true = .error .internalServerError :=
  ⟨by decide, mapFilePathToUrl_outside_root_internal_error testCfg (str "invalid") true
    (by decide) (by decide)⟩

/-- A backend whose bucket provisioning fails with a connectivity error. -/
def ensureFailBackend : Backend := { okBackend with ensureErr := some .connectivity }

/-- Counterexample to C10 as stated: when bucket provisioning (the
`createBucket` call inside `stats`) fails with a non-absence backend error,
`stats` propagates that error unchanged instead of converting it into
NotFound. -/
theorem stats_ensure_failure_not_notfound :
    CloudBlobClient.stats ensureFailBackend { store := [] } (str "c/") =
      .error (.backendErr .connectivity) ∧
    (ClientErr.backendErr .connectivity ≠ ClientErr.notFoundHttp) := by
  decide

/-- Claim C10 (amended): assuming bucket provisioning succeeds, `stats`
either returns a stat record or raises NotFound — every failure of the
underlying `statObject` call, whether or not it is absence, is converted;
and for a key ending in the separator it stats the marker object
(key + `.meta`) and flags the result as a container. -/
theorem stats_conversion (b : Backend) (s : CloudState) (path : Str)
    (hens : b.ensureErr = none) :
    (CloudBlobClient.stats b s path = .error .notFoundHttp ∨
      ∃ st, CloudBlobClient.stats b s path = .ok st) ∧
    (isContainerPath path = true →
      CloudBlobClient.stats b s path =
        (match statObject b s (CloudBlobClient.containerFileName path) with
         | .ok st => .ok { st with container := true }
         | .error _ => .error .notFoundHttp)) := by
  constructor
  · unfold CloudBlobClient.stats
    rw [hens]
    cases hst : statObject b s (if isContainerPath path then
        CloudBlobClient.containerFileName path else path) with
    | ok st => exact Or.inr ⟨{ st with container := isContainerPath path }, by simp [hst]⟩
    | error e => exact Or.inl (by simp [hst])
  · intro hc
    unfold CloudBlobClient.stats
    rw [hens, hc]
    simp

/-- Witness for the amended C10 on a concrete container key whose marker
object exists. -/
theorem stats_conversion_witness :
    (okBackend.ensureErr = none) ∧
    ((CloudBlobClient.stats okBackend { store := [(str "c/.meta", str "x")] } (str "c/") =
        .error .notFoundHttp ∨
      ∃ st, CloudBlobClient.stats okBackend { store := [(str "c/.meta", str "x")] } (str "c/") =
        .ok st) ∧
    (isContainerPath (str "c/") = true →
      CloudBlobClient.stats okBackend { store := [(str "c/.meta", str "x")] } (str "c/") =
        (match statObject okBackend { store := [(str "c/.meta", str "x")] }
            (CloudBlobClient.containerFileName (str "c/")) with
         | .ok st => .ok { st with container := true }
         | .error _ => .error .notFoundHttp))) :=
  ⟨rfl, stats_conversion okBackend { store := [(str "c/.meta", str "x")] } (str "c/") rfl⟩

/-- The non-storage-owned quads of a metadata record written for a
container link are exactly its external attributes. -/
theorem remainingQuads_container (idPath fp : Str) (md : MetadataRecord)
    (hc : isContainerPath fp = true) :
    CloudDataAccessor.remainingQuads
      (CloudExtensionBasedMapper.mkContainerLink idPath fp) md = md.others := by
  unfold CloudDataAccessor.remainingQuads
  cases md.contentType <;> simp [hc, CloudExtensionBasedMapper.mkContainerLink]

/-- Writing the metadata sidecar of a container link: the sidecar key is
the container key plus `.meta` and its content the serialization of the
record's external attributes. -/
theorem writeMetadataFile_container_reduce (b : Backend) (cfg : MapperCfg) (s : CloudState)
    (rel : Str) (md : MetadataRecord)
    (hsl : (['/'] : Str).isPrefixOf rel = true)
    (hdd2 : containsSeq (str "/..") (rel ++ str ".meta") = false)
    (hrelc : isContainerPath rel = true)
    (hens : b.ensureErr = none)
    (hput : b.putFails (cfg.root ++ (rel ++ str ".meta")) = false) :
    CloudDataAccessor.writeMetadataFile b cfg s
        (CloudExtensionBasedMapper.mkContainerLink (cfg.base ++ rel) (cfg.root ++ rel)) md =
      .ok (true,
        CloudState.mk (insertKV s.store (cfg.root ++ (rel ++ str ".meta"))
          (serializeQuads md.others))) := by
  have hrelne : rel ≠ [] := rel_ne_nil_of_slash rel hsl
  have hcb : isContainerPath (cfg.base ++ rel) = true := by
    rw [isContainerPath_append _ _ hrelne]; exact hrelc
  have hcr : isContainerPath (cfg.root ++ rel) = true := by
    rw [isContainerPath_append _ _ hrelne]; exact hrelc
  unfold CloudDataAccessor.writeMetadataFile
  simp only [CloudExtensionBasedMapper.mkContainerLink_identifier,
    CloudExtensionBasedMapper.mkContainerLink_filePath]
  rw [CloudExtensionBasedMapper.mapUrlToFilePath_container_meta_reduce cfg _ rel hsl hdd2 hcb,
    remainingQuads_container _ _ md hcr]
  unfold CloudBlobClient.write
  rw [hens]
  simp only [Except.mapError, CloudExtensionBasedMapper.mkContainerLink_filePath,
    hcr, hput, Bool.or_true, if_true, Bool.false_eq_true, if_false]

open CloudExtensionBasedMapper CloudDataAccessor in
/-- Claim C2 (amended): `writeContainer` is NOT first-write-wins on the
sidecar: every call whose marker put succeeds persists the metadata
supplied to that very call, overwriting the sidecar of an already existing
container (the marker write returns success regardless of prior
existence). -/
theorem writeContainer_each_call_persists (b : Backend) (cfg : MapperCfg)
    (s : CloudState) (rel : Str) (md : MetadataRecord)
    (hsl : (['/'] : Str).isPrefixOf rel = true)
    (hdd : containsSeq (str "/..") rel = false)
    (hdd2 : containsSeq (str "/..") (rel ++ str ".meta") = false)
    (hrelc : isContainerPath rel = true)
    (hens : b.ensureErr = none)
    (hput : b.putFails (cfg.root ++ (rel ++ str ".meta")) = false) :
    ∃ s1, CloudDataAccessor.writeContainer b cfg s (cfg.base ++ rel) md = .ok s1 ∧
      lookupKV s1.store (cfg.root ++ (rel ++ str ".meta")) =
        some (serializeQuads md.others) := by
  have hrelne : rel ≠ [] := rel_ne_nil_of_slash rel hsl
  have hcb : isContainerPath (cfg.base ++ rel) = true := by
    rw [isContainerPath_append _ _ hrelne]; exact hrelc
  unfold CloudDataAccessor.writeContainer
  rw [mapUrlToFilePath_container_reduce cfg _ rel hsl hdd hcb]
  have hput2 : b.putFails (CloudBlobClient.containerFileName (cfg.root ++ rel)) = false := by
    unfold CloudBlobClient.containerFileName
    rw [List.append_assoc]
    exact hput
  unfold CloudBlobClient.writeContainer
  rw [hens]
  simp only [Except.mapError, mkContainerLink_filePath, hput2,
    Bool.false_eq_true, if_false, if_true]
  rw [writeMetadataFile_container_reduce b cfg _ rel md hsl hdd2 hrelc hens hput]
  exact ⟨_, rfl, lookupKV_insertKV_self _ _ _⟩

/-- Witness for the amended C2 at the concrete container `/c/`. -/
theorem writeContainer_each_call_persists_witness :
    ((['/'] : Str).isPrefixOf (str "/c/") = true ∧
      containsSeq (str "/..") (str "/c/") = false ∧
      containsSeq (str "/..") (str "/c/" ++ str ".meta") = false ∧
      isContainerPath (str "/c/") = true ∧
      okBackend.ensureErr = none ∧
      okBackend.putFails (testCfg.root ++ (str "/c/" ++ str ".meta")) = false) ∧
    (∃ s1, CloudDataAccessor.writeContainer okBackend testCfg { store := [] }
        (testCfg.base ++ str "/c/") mdSecond = .ok s1 ∧
      lookupKV s1.store (testCfg.root ++ (str "/c/" ++ str ".meta")) =
        some (serializeQuads mdSecond.others)) :=
  ⟨by decide, writeContainer_each_call_persists okBackend testCfg { store := [] }
    (str "/c/") mdSecond (by decide) (by decide) (by decide) (by decide) rfl (by decide)⟩

/-- Counterexample to C2 as stated: re-creating the existing container
`/c/` with DIFFERENT metadata records persists the SECOND record — the
second call modifies the stored sidecar. -/
theorem writeContainer_second_call_overwrites_sidecar :
    CloudDataAccessor.writeContainer okBackend testCfg { store := [] }
        (str "http://test.com/c/") mdFirst =
      .ok { store := [(str "root/c/.meta", serializeQuads [str "note:first"])] } ∧
    CloudDataAccessor.writeContainer okBackend testCfg
        { store := [(str "root/c/.meta", serializeQuads [str "note:first"])] }
        (str "http://test.com/c/") mdSecond =
      .ok { store := [(str "root/c/.meta", serializeQuads [str "note:second"])] } ∧
    lookupKV [(str "root/c/.meta", serializeQuads [str "note:second"])] (str "root/c/.meta") ≠
      lookupKV [(str "root/c/.meta", serializeQuads [str "note:first"])] (str "root/c/.meta") := by
  decide

open CloudExtensionBasedMapper in
/-- Counterexample to C6 as stated: the identifier `/a$.b/c.txt` is
accepted (the reject pattern only covers a TRAILING marker), and writing it
as `text/turtle` returns the storage key `root/a$.b/c.txt$.ttl`, which
contains TWO occurrences of the reconciliation marker sequence. -/
theorem writePath_two_marker_occurrences :
    (mapUrlToFilePath testCfg (fun _ => none) (str "http://test.com/a$.b/c.txt") false
        (some (str "text/turtle"))).map (fun l => markerCount l.filePath) = .ok 2 ∧
    ¬(2 ≤ 1) := by
  decide

open CloudExtensionBasedMapper in
/-- Claim C6 (amended): on the write path, when the identifier's CANDIDATE
key contains no marker occurrence at all (the code itself only rejects a
trailing one) and the table's extension for the supplied type contains no
marker character, the returned storage key contains at most one occurrence
of the reconciliation marker sequence. -/
theorem writePath_markerCount_le_one (cfg : MapperCfg)
    (list : Str → Option (List Str)) (rel T : Str)
    (hsl : (['/'] : Str).isPrefixOf rel = true)
    (hdd : containsSeq (str "/..") rel = false)
    (hnc : isContainerPath (cfg.base ++ rel) = false)
    (hdollar : hasDollarExtSuffix (cfg.root ++ rel) = false)
    (hzero : markerCount (cfg.root ++ rel) = 0)
    (hext : '$' ∉ extensionFor cfg T) :
    ∀ link, mapUrlToFilePath cfg list (cfg.base ++ rel) false (some T) = .ok link →
      markerCount link.filePath ≤ 1 := by
  intro link hmap
  rw [mapUrlToFilePath_document_reduce cfg list rel (some T) hsl hdd hnc,
    mapDoc_write_reduce cfg list _ _ T hdollar] at hmap
  by_cases h1 : (T == getContentTypeFromPath cfg (cfg.root ++ rel)) = true
  · rw [if_pos h1] at hmap
    have hl : link = mkDocumentLink (cfg.base ++ rel) (cfg.root ++ rel) (some T) :=
      (Except.ok.injEq _ _).mp hmap.symm
    rw [hl]
    show markerCount (cfg.root ++ rel) ≤ 1
    omega
  · rw [if_neg h1] at hmap
    by_cases h2 : (extensionFor cfg T).isEmpty = true
    · rw [if_pos h2] at hmap
      have hl : link = mkDocumentLink (cfg.base ++ rel)
          ((cfg.root ++ rel) ++ '$' :: '.' :: unknownMediaTypeExtension) none :=
        (Except.ok.injEq _ _).mp hmap.symm
      rw [hl]
      show markerCount ((cfg.root ++ rel) ++ '$' :: '.' :: unknownMediaTypeExtension) ≤ 1
      exact markerCount_append_marker _ _ hzero (by decide)
    · rw [if_neg h2] at hmap
      have hl : link = mkDocumentLink (cfg.base ++ rel)
          ((cfg.root ++ rel) ++ '$' :: '.' :: extensionFor cfg T) (some T) :=
        (Except.ok.injEq _ _).mp hmap.symm
      rw [hl]
      show markerCount ((cfg.root ++ rel) ++ '$' :: '.' :: extensionFor cfg T) ≤ 1
      exact markerCount_append_marker _ _ hzero hext

open CloudExtensionBasedMapper in
/-- Witness for the amended C6: writing `/test.txt` as `text/turtle` yields
`root/test.txt$.ttl` with exactly one marker occurrence. -/
theorem writePath_markerCount_le_one_witness :
    (markerCount (testCfg.root ++ str "/test.txt") = 0 ∧
      '$' ∉ extensionFor testCfg (str "text/turtle") ∧
      mapUrlToFilePath testCfg (fun _ => none) (testCfg.base ++ str "/test.txt") false
          (some (str "text/turtle")) =
        .ok (mkDocumentLink (testCfg.base ++ str "/test.txt")
          ((testCfg.root ++ str "/test.txt") ++ '$' :: '.' :: extensionFor testCfg (str "text/turtle"))
          (some (str "text/turtle")))) ∧
    markerCount (mkDocumentLink (testCfg.base ++ str "/test.txt")
      ((testCfg.root ++ str "/test.txt") ++ '$' :: '.' :: extensionFor testCfg (str "text/turtle"))
      (some (str "text/turtle"))).filePath ≤ 1 :=
  ⟨by decide, writePath_markerCount_le_one testCfg (fun _ => none) (str "/test.txt")
    (str "text/turtle") (by decide) (by decide) (by decide) (by decide) (by decide) (by decide)
    (mkDocumentLink (testCfg.base ++ str "/test.txt")
      ((testCfg.root ++ str "/test.txt") ++ '$' :: '.' :: extensionFor testCfg (str "text/turtle"))
      (some (str "text/turtle"))) (by decide)⟩

/-- Claim C1: the code swallows a failed data write.  In the concrete run,
the backend fails the `putObject` of the data key `root/foo$.txt`;
`CloudBlobClient.write` converts this into the boolean `false`, which
`writeDocument` never checks: the call resolves SUCCESSFULLY and the
just-written metadata sidecar `root/foo.meta` survives, contradicting both
the claim and the accessor's own documentation comment ("will be deleted
if something goes wrong writing the actual data"). -/
theorem writeDocument_data_failure_swallowed :
    failDataPut.putFails (str "root/foo$.txt") = true ∧
    CloudDataAccessor.writeDocument failDataPut testCfg { store := [] }
        (str "http://test.com/foo") (str "data") mdLikes =
      .ok { store := [(str "root/foo.meta", serializeQuads [str "likes:apples"])] } ∧
    lookupKV [(str "root/foo.meta", serializeQuads [str "likes:apples"])] (str "root/foo.meta") =
      some (serializeQuads [str "likes:apples"]) := by
  decide

open CloudExtensionBasedMapper in
/-- Counterexample to C3 as stated: the document identifier ending in the
sidecar suffix `.meta` maps (with its matching content type `text/turtle`)
to the unmodified key `root/foo.meta`, but the inverse mapping flags that
key as a sidecar and trims the suffix, recovering a DIFFERENT identifier. -/
theorem roundTrip_fails_on_meta_identifier :
    (mapUrlToFilePath testCfg (fun _ => none) (str "http://test.com/foo.meta") false
        (some (str "text/turtle"))).map (fun l => l.filePath) = .ok (str "root/foo.meta") ∧
    (mapFilePathToUrl testCfg (str "root/foo.meta") false).map (fun l => l.identifier) =
      .ok (str "http://test.com/foo") ∧
    str "http://test.com/foo" ≠ str "http://test.com/foo.meta" := by
  decide

open CloudExtensionBasedMapper in
/-- Claim C3 (amended): the mapper round trip holds for every accepted
document identifier that does not end in the sidecar suffix `.meta` and
whose relative path does not end in a `$.<extension>` sequence (the code's
reject pattern only covers word-character extensions), provided the table
is coherent at the supplied type `T` (its extension for `T`, when present,
is a nonempty lowercase dot/slash-free string other than `meta` that looks
back up to `T`): the storage key maps back to the exact identifier, and the
recovered content type is `T` — except when `T` has no representable
extension, in which case (the fallback extension being absent from the
table) the recovered content type is the table's default. -/
theorem mapper_roundTrip (cfg : MapperCfg) (list : Str → Option (List Str)) (rel T : Str)
    (hsl : (['/'] : Str).isPrefixOf rel = true)
    (hdd : containsSeq (str "/..") rel = false)
    (hnc : isContainerPath (cfg.base ++ rel) = false)
    (hdollar : hasDollarExtSuffix (cfg.root ++ rel) = false)
    (hmeta : isMetadataPath (cfg.root ++ rel) = false)
    (hstrip : (!(getExtension rel).isEmpty &&
      ('$' :: '.' :: getExtension rel).isSuffixOf rel) = false)
    (htblExt : extensionFor cfg T ≠ [] →
      ((∀ c ∈ extensionFor cfg T, ¬(c = '.') ∧ ¬(c = '/')) ∧
        (extensionFor cfg T).map Char.toLower = extensionFor cfg T ∧
        extensionFor cfg T ≠ str "meta" ∧
        firstTruthy [cfg.mimeLookup (extensionFor cfg T), cfg.customTypes (extensionFor cfg T)]
          octetStream = T))
    (hunk : firstTruthy [cfg.mimeLookup (str "unknown"), cfg.customTypes (str "unknown")]
      octetStream = octetStream) :
    ∃ link link2,
      mapUrlToFilePath cfg list (cfg.base ++ rel) false (some T) = .ok link ∧
      mapFilePathToUrl cfg link.filePath false = .ok link2 ∧
      link2.identifier = cfg.base ++ rel ∧
      ((getContentTypeFromPath cfg (cfg.root ++ rel) = T ∨ extensionFor cfg T ≠ []) →
        link2.contentType = some T) ∧
      ((getContentTypeFromPath cfg (cfg.root ++ rel) ≠ T ∧ extensionFor cfg T = []) →
        link2.contentType = some octetStream) := by
  have hfwd := mapUrlToFilePath_document_reduce cfg list rel (some T) hsl hdd hnc
  rw [mapDoc_write_reduce cfg list _ _ T hdollar] at hfwd
  by_cases h1 : (T == getContentTypeFromPath cfg (cfg.root ++ rel)) = true
  · -- the candidate's extension already implies T: key unmodified
    rw [if_pos h1] at hfwd
    have hctT : getContentTypeFromPath cfg (cfg.root ++ rel) = T := (eq_of_beq h1).symm
    have hinv := mapFilePathToUrl_document_reduce cfg (cfg.root ++ rel)
      (isPrefixOf_append_self _ _) hmeta
    rw [drop_len_append, stripExtension_eq_self rel hstrip] at hinv
    refine ⟨_, ⟨cfg.base ++ rel, cfg.root ++ rel,
      some (getContentTypeFromPath cfg (cfg.root ++ rel)), false⟩, hfwd, ?_, rfl, ?_, ?_⟩
    · rw [mkDocumentLink_filePath]
      exact hinv
    · intro _
      rw [hctT]
    · intro hcon
      exact absurd hctT hcon.1
  · rw [if_neg h1] at hfwd
    have hctne : getContentTypeFromPath cfg (cfg.root ++ rel) ≠ T := by
      intro hcon
      rw [hcon] at h1
      exact h1 (beq_self_eq_true T)
    by_cases h2 : (extensionFor cfg T).isEmpty = true
    · -- no representable extension: fallback suffix, recovered type is the default
      rw [if_pos h2] at hfwd
      have hEmpty : extensionFor cfg T = [] := by
        cases hcase : extensionFor cfg T with
        | nil => rfl
        | cons c t => rw [hcase] at h2; exact absurd h2 (by simp)
      have hneu : unknownMediaTypeExtension ≠ [] := by decide
      have hchu : ∀ c ∈ unknownMediaTypeExtension, ¬(c = '.') ∧ ¬(c = '/') := by decide
      have hmu : unknownMediaTypeExtension ≠ str "meta" := by decide
      have hroot2 : cfg.root.isPrefixOf
          ((cfg.root ++ rel) ++ '$' :: '.' :: unknownMediaTypeExtension) = true := by
        rw [List.append_assoc]
        exact isPrefixOf_append_self _ _
      have hmeta2 : isMetadataPath
          ((cfg.root ++ rel) ++ '$' :: '.' :: unknownMediaTypeExtension) = false :=
        isMetadataPath_append_marker _ _ hchu hmu
      have hinv := mapFilePathToUrl_document_reduce cfg
        ((cfg.root ++ rel) ++ '$' :: '.' :: unknownMediaTypeExtension) hroot2 hmeta2
      rw [List.append_assoc, drop_len_append,
        stripExtension_append_marker rel _ hneu hchu,
        ← List.append_assoc] at hinv
      rw [getCT_append_marker cfg (cfg.root ++ rel) _ hneu hchu] at hinv
      rw [show unknownMediaTypeExtension.map Char.toLower = str "unknown" from by decide] at hinv
      rw [hunk] at hinv
      refine ⟨_, ⟨cfg.base ++ rel,
        (cfg.root ++ rel) ++ '$' :: '.' :: unknownMediaTypeExtension,
        some octetStream, false⟩, hfwd, ?_, rfl, ?_, ?_⟩
      · rw [mkDocumentLink_filePath]
        exact hinv
      · intro hcon
        rcases hcon with hcon | hcon
        · exact absurd hcon hctne
        · exact absurd hEmpty hcon
      · intro _
        rfl
    · -- the table has an extension for T: marker plus that extension
      rw [if_neg h2] at hfwd
      have hene : extensionFor cfg T ≠ [] := by
        intro hcon
        rw [hcon] at h2
        exact h2 rfl
      obtain ⟨hch, hlower, hm, hcoh⟩ := htblExt hene
      have hroot2 : cfg.root.isPrefixOf
          ((cfg.root ++ rel) ++ '$' :: '.' :: extensionFor cfg T) = true := by
        rw [List.append_assoc]
        exact isPrefixOf_append_self _ _
      have hmeta2 : isMetadataPath
          ((cfg.root ++ rel) ++ '$' :: '.' :: extensionFor cfg T) = false :=
        isMetadataPath_append_marker _ _ hch hm
      have hinv := mapFilePathToUrl_document_reduce cfg
        ((cfg.root ++ rel) ++ '$' :: '.' :: extensionFor cfg T) hroot2 hmeta2
      rw [List.append_assoc, drop_len_append,
        stripExtension_append_marker rel _ hene hch,
        ← List.append_assoc] at hinv
      rw [getCT_append_marker cfg (cfg.root ++ rel) _ hene hch, hlower, hcoh] at hinv
      refine ⟨_, ⟨cfg.base ++ rel,
        (cfg.root ++ rel) ++ '$' :: '.' :: extensionFor cfg T,
        some T, false⟩, hfwd, ?_, rfl, ?_, ?_⟩
      · rw [mkDocumentLink_filePath]
        exact hinv
      · intro _
        rfl
      · intro hcon
        exact absurd hcon.2 hene

open CloudExtensionBasedMapper in
/-- Witness for the amended C3: `/test.txt` written as `text/turtle` goes
to `root/test.txt$.ttl` and back. -/
theorem mapper_roundTrip_witness :
    ((['/'] : Str).isPrefixOf (str "/test.txt") = true ∧
      isMetadataPath (testCfg.root ++ str "/test.txt") = false ∧
      extensionFor testCfg (str "text/turtle") = str "ttl") ∧
    (∃ link link2,
      mapUrlToFilePath testCfg (fun _ => none) (testCfg.base ++ str "/test.txt") false
          (some (str "text/turtle")) = .ok link ∧
      mapFilePathToUrl testCfg link.filePath false = .ok link2 ∧
      link2.identifier = testCfg.base ++ str "/test.txt" ∧
      ((getContentTypeFromPath testCfg (testCfg.root ++ str "/test.txt") = str "text/turtle" ∨
          extensionFor testCfg (str "text/turtle") ≠ []) →
        link2.contentType = some (str "text/turtle")) ∧
      ((getContentTypeFromPath testCfg (testCfg.root ++ str "/test.txt") ≠ str "text/turtle" ∧
          extensionFor testCfg (str "text/turtle") = []) →
        link2.contentType = some octetStream)) :=
  ⟨by decide, mapper_roundTrip testCfg (fun _ => none) (str "/test.txt") (str "text/turtle")
    (by decide) (by decide) (by decide) (by decide) (by decide) (by decide)
    (fun _ => by refine ⟨?_, ?_, ?_, ?_⟩ <;> decide) (by decide)⟩
